import Mathlib

/-!
Verification of the nixbot frontend/backend job-dispatch pipeline.

Shallow embedding of the Python sources:
  * `nixbot-frontend/src/nixbot_frontend/nixpkgs.py`  (event watcher, ofborg resolver)
  * `nixbot-frontend/src/nixbot_frontend/server.py`   (local submission endpoint)
  * `nixbot-frontend/src/nixbot_frontend/frontend.py` (dispatcher)
  * `nixbot-backend/src/nixbot_backend/backend.py`    (worker loop)
  * `nixbot-backend/src/nixbot_backend/block_github_comment.py` (publish gate)

Pure data (lists, association lists, rationals for wall-clock times) stands in
for Python dicts, JSON values and floats; network/journald/disk inputs are
passed explicitly as arguments so every function here is executable.
-/

set_option autoImplicit false

namespace Nixbot

/-! ## EventWatcher: `aiter_nixpkgs_events` (nixpkgs.py lines 41-88)

A github event is a JSON object with an `id` field; everything else is opaque
payload.  `cur_events = {e["id"]: e for e in json_body}` builds a Python dict,
whose insertion semantics (replace-in-place on duplicate key, append otherwise)
`dictInsert` reproduces on an association list. -/

structure GhEvent where
  id : String
  payload : String
deriving DecidableEq

/-- Association-list image of a Python dict keyed by event id. -/
abbrev EventDict := List (String × GhEvent)

/-- Python dict item assignment `d[k] = v`: replace in place when the key is
present, otherwise append at the end. -/
def dictInsert (d : EventDict) (k : String) (v : GhEvent) : EventDict :=
  if d.any (fun p => p.1 == k) then
    d.map (fun p => if p.1 == k then (k, v) else p)
  else
    d ++ [(k, v)]

/-- `{e["id"]: e for e in json_body}` (nixpkgs.py line 66). -/
def dictOfEvents (page : List GhEvent) : EventDict :=
  page.foldl (fun d e => dictInsert d e.id e) []

/-- Python `k in d` on a dict. -/
def containsKey (d : EventDict) (k : String) : Bool :=
  d.any (fun p => p.1 == k)

/-- The body of the `resp.status == 200` branch (nixpkgs.py lines 64-78):
from the stored window `prv` and the freshly fetched page, compute the list of
yielded events and the new stored window.  On the very first success
(`prv_events is None`) nothing is yielded; afterwards
`new_events = {k: v for k, v in cur_events.items() if k not in prv_events}`
is yielded and `prv_events = cur_events` replaces the window. -/
def aiter_nixpkgs_events_step (prv : Option EventDict) (page : List GhEvent) :
    List GhEvent × EventDict :=
  let cur := dictOfEvents page
  match prv with
  | none => ([], cur)
  | some p => ((cur.filter (fun kv => !(containsKey p kv.1))).map Prod.snd, cur)

/-- One poll response as seen by the watcher loop: HTTP 200 with a JSON page,
a 401 (which raises `RuntimeError`), or any other status (no branch taken). -/
inductive PollResp where
  | ok (page : List GhEvent)
  | unauthorized
  | other
deriving DecidableEq

/-- The watcher loop run over a finite trace of poll responses, collecting
every yielded event in order.  A 401 terminates the loop (RuntimeError);
any other non-200 status leaves the stored window untouched. -/
def runPolls : Option EventDict → List PollResp → List GhEvent
  | _, [] => []
  | _, PollResp.unauthorized :: _ => []
  | prv, PollResp.other :: rs => runPolls prv rs
  | prv, PollResp.ok page :: rs =>
      (aiter_nixpkgs_events_step prv page).1 ++
        runPolls (some (aiter_nixpkgs_events_step prv page).2) rs

/-! ### Dictionary lemmas -/

theorem containsKey_iff (d : EventDict) (k : String) :
    containsKey d k = true ↔ k ∈ d.map Prod.fst := by
  simp [containsKey, List.any_eq_true, List.mem_map]

theorem keys_dictInsert (d : EventDict) (k : String) (v : GhEvent) :
    (dictInsert d k v).map Prod.fst =
      if containsKey d k then d.map Prod.fst else d.map Prod.fst ++ [k] := by
  unfold dictInsert containsKey
  by_cases h : d.any (fun p => p.1 == k)
  · simp only [h, if_pos, List.map_map]
    refine List.map_congr_left (fun p _ => ?_)
    by_cases hk : p.1 == k
    · simp [hk, Function.comp]
      exact (beq_iff_eq.mp hk).symm
    · simp [hk, Function.comp]
  · simp [h]

theorem mem_dictInsert (d : EventDict) (k : String) (v : GhEvent)
    (p : String × GhEvent) (hp : p ∈ dictInsert d k v) : p ∈ d ∨ p = (k, v) := by
  unfold dictInsert at hp
  by_cases h : d.any (fun q => q.1 == k)
  · simp only [h, if_pos] at hp
    rcases List.mem_map.mp hp with ⟨q, hq, he⟩
    by_cases hk : q.1 == k
    · simp [hk] at he
      exact Or.inr he.symm
    · simp [hk] at he
      exact Or.inl (he ▸ hq)
  · simp only [h, if_neg, Bool.false_eq_true, not_false_iff, List.mem_append,
      List.mem_singleton] at hp
    rcases hp with hp | hp
    · exact Or.inl hp
    · exact Or.inr hp

theorem nodup_keys_dictInsert (d : EventDict) (k : String) (v : GhEvent)
    (h : (d.map Prod.fst).Nodup) : ((dictInsert d k v).map Prod.fst).Nodup := by
  rw [keys_dictInsert]
  by_cases hc : containsKey d k
  · simpa [hc] using h
  · have hk : k ∉ d.map Prod.fst := fun hm => hc ((containsKey_iff d k).mpr hm)
    simp only [hc, Bool.false_eq_true, if_neg, not_false_iff]
    rw [List.nodup_append]
    refine ⟨h, List.nodup_singleton k, fun a ha hb => ?_⟩
    exact hk ((List.mem_singleton.mp hb) ▸ ha)

theorem keys_foldl (page : List GhEvent) :
    ∀ (d : EventDict) (k : String),
      k ∈ ((page.foldl (fun d e => dictInsert d e.id e) d).map Prod.fst) ↔
        k ∈ d.map Prod.fst ∨ k ∈ page.map GhEvent.id := by
  induction page with
  | nil => intro d k; simp
  | cons e rest ih =>
      intro d k
      simp only [List.foldl_cons, List.map_cons, List.mem_cons]
      rw [ih]
      rw [keys_dictInsert]
      by_cases hc : containsKey d e.id
      · have he : e.id ∈ d.map Prod.fst := (containsKey_iff d e.id).mp hc
        simp only [hc, if_pos]
        constructor
        · rintro (h | h)
          · exact Or.inl h
          · exact Or.inr (Or.inr h)
        · rintro (h | h | h)
          · exact Or.inl h
          · exact Or.inl (h ▸ he)
          · exact Or.inr h
      · simp only [hc, Bool.false_eq_true, if_neg, not_false_iff, List.mem_append,
          List.mem_singleton]
        tauto

theorem mem_foldl (page : List GhEvent) :
    ∀ (d : EventDict) (p : String × GhEvent),
      p ∈ page.foldl (fun d e => dictInsert d e.id e) d →
        p ∈ d ∨ (p.1 = p.2.id ∧ p.2 ∈ page) := by
  induction page with
  | nil => intro d p hp; exact Or.inl hp
  | cons e rest ih =>
      intro d p hp
      rcases ih (dictInsert d e.id e) p hp with h | h
      · rcases mem_dictInsert d e.id e p h with h | h
        · exact Or.inl h
        · subst h
          exact Or.inr ⟨rfl, List.mem_cons_self _ _⟩
      · exact Or.inr ⟨h.1, List.mem_cons_of_mem _ h.2⟩

theorem nodup_keys_foldl (page : List GhEvent) :
    ∀ (d : EventDict), (d.map Prod.fst).Nodup →
      ((page.foldl (fun d e => dictInsert d e.id e) d).map Prod.fst).Nodup := by
  induction page with
  | nil => intro d h; exact h
  | cons e rest ih =>
      intro d h
      exact ih _ (nodup_keys_dictInsert d e.id e h)

theorem keys_dictOfEvents (page : List GhEvent) (k : String) :
    k ∈ (dictOfEvents page).map Prod.fst ↔ k ∈ page.map GhEvent.id := by
  unfold dictOfEvents
  rw [keys_foldl]
  simp

theorem mem_dictOfEvents (page : List GhEvent) (p : String × GhEvent)
    (hp : p ∈ dictOfEvents page) : p.1 = p.2.id ∧ p.2 ∈ page := by
  rcases mem_foldl page [] p hp with h | h
  · simp at h
  · exact h

theorem nodup_keys_dictOfEvents (page : List GhEvent) :
    ((dictOfEvents page).map Prod.fst).Nodup :=
  nodup_keys_foldl page [] (by simp)

theorem containsKey_dictOfEvents (page : List GhEvent) (k : String) :
    containsKey (dictOfEvents page) k = true ↔ k ∈ page.map GhEvent.id := by
  rw [containsKey_iff, keys_dictOfEvents]

theorem step_snd (prv : Option EventDict) (page : List GhEvent) :
    (aiter_nixpkgs_events_step prv page).2 = dictOfEvents page := by
  cases prv <;> rfl

theorem runPolls_skip_other (pre : List PollResp)
    (hpre : ∀ r ∈ pre, r = PollResp.other) (s : Option EventDict)
    (rs : List PollResp) : runPolls s (pre ++ rs) = runPolls s rs := by
  induction pre with
  | nil => rfl
  | cons r pre ih =>
      have hr : r = PollResp.other := hpre r (List.mem_cons_self _ _)
      subst hr
      show runPolls s (PollResp.other :: (pre ++ rs)) = runPolls s rs
      rw [show runPolls s (PollResp.other :: (pre ++ rs)) = runPolls s (pre ++ rs)
        from rfl]
      exact ih (fun q hq => hpre q (List.mem_cons_of_mem _ hq))

/-- **C1.** For two consecutive HTTP-200 polls returning pages `page1` then
`page2`, `aiter_nixpkgs_events` yields exactly the events of `page2` whose id
does not occur in `page1` (set difference by id), each id at most once, and the
stored previous window is replaced by `page2`'s dict (not unioned with
`page1`'s). -/
theorem eventwatcher_consecutive_pages_diff (s0 : Option EventDict)
    (page1 page2 : List GhEvent) :
    (((aiter_nixpkgs_events_step (some (aiter_nixpkgs_events_step s0 page1).2)
        page2).1.map GhEvent.id).Nodup)
    ∧ (∀ e ∈ (aiter_nixpkgs_events_step
          (some (aiter_nixpkgs_events_step s0 page1).2) page2).1,
        e ∈ page2 ∧ e.id ∉ page1.map GhEvent.id)
    ∧ (∀ i, (∃ e ∈ (aiter_nixpkgs_events_step
          (some (aiter_nixpkgs_events_step s0 page1).2) page2).1, e.id = i) ↔
        (i ∈ page2.map GhEvent.id ∧ i ∉ page1.map GhEvent.id))
    ∧ (aiter_nixpkgs_events_step
        (some (aiter_nixpkgs_events_step s0 page1).2) page2).2 =
        dictOfEvents page2 := by
  rw [step_snd s0 page1]
  have hdef : aiter_nixpkgs_events_step (some (dictOfEvents page1)) page2 =
      (((dictOfEvents page2).filter
          (fun kv => !(containsKey (dictOfEvents page1) kv.1))).map Prod.snd,
        dictOfEvents page2) := rfl
  rw [hdef]
  set cur := dictOfEvents page2 with hcur
  set p1d := dictOfEvents page1 with hp1d
  set g : String × GhEvent → Bool := fun kv => !(containsKey p1d kv.1) with hg
  have hshape : ∀ kv ∈ cur.filter g, kv.1 = kv.2.id := fun kv hkv =>
    (mem_dictOfEvents page2 kv (List.mem_filter.mp hkv).1).1
  have hnotin : ∀ kv ∈ cur.filter g, kv.1 ∉ page1.map GhEvent.id := by
    intro kv hkv hmem
    have hfl := (List.mem_filter.mp hkv).2
    have : containsKey p1d kv.1 = true :=
      (containsKey_dictOfEvents page1 kv.1).mpr hmem
    rw [hg] at hfl
    simp only [this, Bool.not_true] at hfl
    exact Bool.false_ne_true hfl
  refine ⟨?_, ?_, ?_, rfl⟩
  · have hmapeq : ((cur.filter g).map Prod.snd).map GhEvent.id =
        (cur.filter g).map Prod.fst := by
      rw [List.map_map]
      exact List.map_congr_left (fun kv hkv => (hshape kv hkv).symm)
    rw [hmapeq]
    exact List.Nodup.sublist ((List.filter_sublist cur).map Prod.fst)
      (nodup_keys_dictOfEvents page2)
  · intro e he
    rcases List.mem_map.mp he with ⟨kv, hkv, hsnd⟩
    have hm := mem_dictOfEvents page2 kv (List.mem_filter.mp hkv).1
    refine ⟨hsnd ▸ hm.2, ?_⟩
    rw [← hsnd, ← hm.1]
    exact hnotin kv hkv
  · intro i
    constructor
    · rintro ⟨e, he, hid⟩
      rcases List.mem_map.mp he with ⟨kv, hkv, hsnd⟩
      have hm := mem_dictOfEvents page2 kv (List.mem_filter.mp hkv).1
      have hkey : kv.1 = i := by rw [hm.1, hsnd, hid]
      constructor
      · exact (keys_dictOfEvents page2 i).mp
          (hkey ▸ List.mem_map.mpr ⟨kv, (List.mem_filter.mp hkv).1, rfl⟩)
      · exact hkey ▸ hnotin kv hkv
    · rintro ⟨h2, h1⟩
      have : i ∈ cur.map Prod.fst := (keys_dictOfEvents page2 i).mpr h2
      rcases List.mem_map.mp this with ⟨kv, hkv, hfst⟩
      have hcontains : containsKey p1d i = false := by
        cases hb : containsKey p1d i
        · rfl
        · exact absurd ((containsKey_dictOfEvents page1 i).mp hb) h1
      have hgkv : g kv = true := by
        rw [hg]
        simp only [hfst, hcontains, Bool.not_false]
      have hmem : kv ∈ cur.filter g := List.mem_filter.mpr ⟨hkv, hgkv⟩
      exact ⟨kv.2, List.mem_map.mpr ⟨kv, hmem, rfl⟩,
        by rw [← (mem_dictOfEvents page2 kv hkv).1, hfst]⟩

def page1ex : List GhEvent := [⟨"1", "a"⟩, ⟨"2", "b"⟩]

def page2ex : List GhEvent := [⟨"2", "b"⟩, ⟨"3", "c"⟩]

/-- Witness for C1 at pages `[1,2]` then `[2,3]`: id `3` is yielded and the
stored window becomes the dict of the second page. -/
theorem eventwatcher_consecutive_pages_diff_witness :
    (∃ e ∈ (aiter_nixpkgs_events_step
        (some (aiter_nixpkgs_events_step none page1ex).2) page2ex).1,
      e.id = "3")
    ∧ (aiter_nixpkgs_events_step
        (some (aiter_nixpkgs_events_step none page1ex).2) page2ex).2 =
        dictOfEvents page2ex := by
  have h := eventwatcher_consecutive_pages_diff none page1ex page2ex
  exact ⟨(h.2.2.1 "3").mpr ⟨by decide, by decide⟩, h.2.2.2⟩

/-- **C10.** The first HTTP-200 poll after startup yields no events, whatever
the page contains: after a prefix of non-200/non-401 polls (which leave the
stored window `None`), the first successful poll contributes nothing to the
yielded stream, and the loop continues with the page's dict as the window. -/
theorem eventwatcher_first_success_yields_nothing (pre : List PollResp)
    (page : List GhEvent) (rest : List PollResp)
    (hpre : ∀ r ∈ pre, r = PollResp.other) :
    runPolls none (pre ++ [PollResp.ok page]) = []
    ∧ runPolls none (pre ++ PollResp.ok page :: rest) =
        runPolls (some (dictOfEvents page)) rest := by
  have key : ∀ rs, runPolls none (pre ++ PollResp.ok page :: rs) =
      runPolls (some (dictOfEvents page)) rs := by
    intro rs
    rw [runPolls_skip_other pre hpre none (PollResp.ok page :: rs)]
    show (aiter_nixpkgs_events_step none page).1 ++
        runPolls (some (aiter_nixpkgs_events_step none page).2) rs =
      runPolls (some (dictOfEvents page)) rs
    rfl
  exact ⟨key [], key rest⟩

/-- Witness for C10: one failed poll, then a successful poll of a non-empty
page, yields nothing. -/
theorem eventwatcher_first_success_yields_nothing_witness :
    runPolls none [PollResp.other, PollResp.ok page2ex] = [] :=
  (eventwatcher_first_success_yields_nothing [PollResp.other] page2ex []
    (by decide)).1

/-! ## EvalResolver: `get_ofborg_eval` / `get_ofborg_gist_data`
(nixpkgs.py lines 91-170)

The ofborg gist is a line-oriented artifact; `line.split()` yields a
`(system, attribute)` pair per line, which we take pre-split.  The companion
mapping is a `defaultdict(set)` keyed by system. -/

def BLACKLISTED_ATTRS : List String :=
  ["tests.nixos-functions.nixos-test", "tests.nixos-functions.nixosTest-test"]

/-- `packages_per_system[system].add(attribute)` on a `defaultdict(set)`:
add to the existing set in place, or append a fresh singleton entry. -/
def upsertAdd (d : List (String × Finset String)) (k : String) (v : String) :
    List (String × Finset String) :=
  if d.any (fun p => p.1 == k) then
    d.map (fun p => if p.1 == k then (p.1, insert v p.2) else p)
  else
    d ++ [(k, {v})]

/-- `get_ofborg_gist_data` (nixpkgs.py lines 91-104) on pre-split gist lines:
group attributes by system, dropping attributes on the noise blocklist. -/
def get_ofborg_gist_data (lines : List (String × String)) :
    List (String × Finset String) :=
  lines.foldl
    (fun d p => if p.2 ∈ BLACKLISTED_ATTRS then d else upsertAdd d p.1 p.2) []

structure OfborgEval where
  url : String
  packages_per_system : List (String × Finset String)
deriving DecidableEq

/-- One element of the statuses JSON array: either not a dict (skipped with a
logged error) or a status object.  `status.get` on a missing key is `none`;
`status["target_url"]` is accessed unconditionally on the success path. -/
structure OfStatus where
  description : Option String
  state : Option String
  target_url : String
deriving DecidableEq

inductive OfStatusEntry where
  | notDict
  | status (s : OfStatus)
deriving DecidableEq

def FAILURE_MSG : String :=
  "This PR does not cleanly list package outputs after merging."

inductive ScanOutcome where
  | finished (r : Option OfborgEval)
  | keepWaiting
deriving DecidableEq

/-- The `for status in rjson` scan (nixpkgs.py lines 139-163):
first status matching the ofborg success signature decides the outcome
(empty target artifact → `None`, else fetch the gist); the fixed failure
signature also decides `None`; otherwise fall through and keep waiting. -/
def scan_statuses (fetch : String → List (String × String)) :
    List OfStatusEntry → ScanOutcome
  | [] => ScanOutcome.keepWaiting
  | OfStatusEntry.notDict :: rest => scan_statuses fetch rest
  | OfStatusEntry.status s :: rest =>
      if s.description == some "^.^!" && s.state == some "success" then
        if s.target_url = "" then ScanOutcome.finished none
        else ScanOutcome.finished (some
          ⟨s.target_url, get_ofborg_gist_data (fetch s.target_url)⟩)
      else if s.description == some FAILURE_MSG && s.state == some "failure" then
        ScanOutcome.finished none
      else scan_statuses fetch rest

/-- Whether a statuses-array entry matches either ofborg signature. -/
def statusEntryMatches : OfStatusEntry → Bool
  | OfStatusEntry.notDict => false
  | OfStatusEntry.status s =>
      (s.description == some "^.^!" && s.state == some "success")
        || (s.description == some FAILURE_MSG && s.state == some "failure")

/-! ### Gist-data lemmas -/

theorem mem_upsertAdd_attr (d : List (String × Finset String)) (k v : String)
    (p : String × Finset String) (hp : p ∈ upsertAdd d k v)
    (a : String) (ha : a ∈ p.2) :
    (∃ q ∈ d, q.1 = p.1 ∧ a ∈ q.2) ∨ (a = v ∧ p.1 = k) := by
  unfold upsertAdd at hp
  by_cases hany : d.any (fun q => q.1 == k)
  · simp only [hany, if_pos] at hp
    rcases List.mem_map.mp hp with ⟨q, hq, he⟩
    by_cases hqk : q.1 == k
    · rw [if_pos hqk] at he
      subst he
      simp only [Finset.mem_insert] at ha
      rcases ha with ha | ha
      · exact Or.inr ⟨ha, beq_iff_eq.mp hqk⟩
      · exact Or.inl ⟨q, hq, rfl, ha⟩
    · rw [if_neg hqk] at he
      exact Or.inl ⟨q, hq, by rw [he], he ▸ ha⟩
  · simp only [hany, Bool.false_eq_true, if_neg, not_false_iff,
      List.mem_append, List.mem_singleton] at hp
    rcases hp with hp | hp
    · exact Or.inl ⟨p, hp, rfl, ha⟩
    · subst hp
      simp only [Finset.mem_singleton] at ha
      exact Or.inr ⟨ha, rfl⟩

theorem gist_fold_mem (lines : List (String × String)) :
    ∀ (d : List (String × Finset String))
      (p : String × Finset String),
      p ∈ lines.foldl
        (fun d q => if q.2 ∈ BLACKLISTED_ATTRS then d else upsertAdd d q.1 q.2)
        d →
      ∀ a ∈ p.2,
        (∃ q ∈ d, q.1 = p.1 ∧ a ∈ q.2)
          ∨ (a ∉ BLACKLISTED_ATTRS ∧ (p.1, a) ∈ lines) := by
  induction lines with
  | nil =>
      intro d p hp a ha
      exact Or.inl ⟨p, hp, rfl, ha⟩
  | cons l ls ih =>
      intro d p hp a ha
      simp only [List.foldl_cons] at hp
      rcases ih _ p hp a ha with h | h
      · rcases h with ⟨q, hq, hfst, hmem⟩
        by_cases hbl : l.2 ∈ BLACKLISTED_ATTRS
        · rw [if_pos hbl] at hq
          exact Or.inl ⟨q, hq, hfst, hmem⟩
        · rw [if_neg hbl] at hq
          rcases mem_upsertAdd_attr d l.1 l.2 q hq a hmem with h2 | h2
          · rcases h2 with ⟨q0, hq0, hfst0, hmem0⟩
            exact Or.inl ⟨q0, hq0, hfst0.trans hfst, hmem0⟩
          · refine Or.inr ⟨h2.1 ▸ hbl, ?_⟩
            rw [← hfst, h2.2, h2.1]
            exact List.mem_cons_self _ _
      · exact Or.inr ⟨h.1, List.mem_cons_of_mem _ h.2⟩

theorem mem_get_ofborg_gist_data (lines : List (String × String))
    (p : String × Finset String) (hp : p ∈ get_ofborg_gist_data lines)
    (a : String) (ha : a ∈ p.2) :
    a ∉ BLACKLISTED_ATTRS ∧ (p.1, a) ∈ lines := by
  rcases gist_fold_mem lines [] p hp a ha with h | h
  · simp at h
  · exact h

theorem upsertAdd_preserves (d : List (String × Finset String))
    (k v sys attr : String) (h : ∃ s, (sys, s) ∈ d ∧ attr ∈ s) :
    ∃ s, (sys, s) ∈ upsertAdd d k v ∧ attr ∈ s := by
  rcases h with ⟨s, hs, hattr⟩
  unfold upsertAdd
  by_cases hany : d.any (fun q => q.1 == k)
  · simp only [hany, if_pos]
    have him := List.mem_map_of_mem
      (fun p : String × Finset String =>
        if p.1 == k then (p.1, insert v p.2) else p) hs
    by_cases hk : sys = k
    · refine ⟨insert v s, ?_, Finset.mem_insert_of_mem hattr⟩
      have himg : (fun p : String × Finset String =>
          if p.1 == k then (p.1, insert v p.2) else p) (sys, s) =
          (sys, insert v s) := by simp [hk]
      exact himg ▸ him
    · refine ⟨s, ?_, hattr⟩
      have himg : (fun p : String × Finset String =>
          if p.1 == k then (p.1, insert v p.2) else p) (sys, s) = (sys, s) := by
        simp [hk]
      exact himg ▸ him
  · simp only [hany, Bool.false_eq_true, if_neg, not_false_iff]
    exact ⟨s, List.mem_append_left _ hs, hattr⟩

theorem upsertAdd_adds (d : List (String × Finset String)) (k v : String) :
    ∃ s, (k, s) ∈ upsertAdd d k v ∧ v ∈ s := by
  unfold upsertAdd
  by_cases hany : d.any (fun q => q.1 == k)
  · simp only [hany, if_pos]
    rcases List.any_eq_true.mp hany with ⟨q, hq, hqk⟩
    refine ⟨insert v q.2, ?_, Finset.mem_insert_self _ _⟩
    have him := List.mem_map_of_mem
      (fun p : String × Finset String =>
        if p.1 == k then (p.1, insert v p.2) else p) hq
    have hk : q.1 = k := beq_iff_eq.mp hqk
    have himg : (fun p : String × Finset String =>
        if p.1 == k then (p.1, insert v p.2) else p) q =
        (k, insert v q.2) := by simp [hqk, hk]
    exact himg ▸ him
  · simp only [hany, Bool.false_eq_true, if_neg, not_false_iff]
    exact ⟨{v}, List.mem_append_right _ (List.mem_singleton_self _),
      Finset.mem_singleton_self _⟩

theorem gist_fold_preserves (lines : List (String × String)) :
    ∀ (d : List (String × Finset String)) (sys attr : String),
      (∃ s, (sys, s) ∈ d ∧ attr ∈ s) →
      ∃ s, (sys, s) ∈ lines.foldl
        (fun d q => if q.2 ∈ BLACKLISTED_ATTRS then d else upsertAdd d q.1 q.2)
        d ∧ attr ∈ s := by
  induction lines with
  | nil => intro d sys attr h; exact h
  | cons l ls ih =>
      intro d sys attr h
      simp only [List.foldl_cons]
      by_cases hbl : l.2 ∈ BLACKLISTED_ATTRS
      · rw [if_pos hbl]
        exact ih d sys attr h
      · rw [if_neg hbl]
        exact ih _ sys attr (upsertAdd_preserves d l.1 l.2 sys attr h)

theorem gist_complete (lines : List (String × String)) :
    ∀ (sys attr : String), (sys, attr) ∈ lines →
      attr ∉ BLACKLISTED_ATTRS →
      ∃ s, (sys, s) ∈ get_ofborg_gist_data lines ∧ attr ∈ s := by
  suffices h : ∀ (ls : List (String × String)) (d : List (String × Finset String))
      (sys attr : String), (sys, attr) ∈ ls → attr ∉ BLACKLISTED_ATTRS →
      ∃ s, (sys, s) ∈ ls.foldl
        (fun d q => if q.2 ∈ BLACKLISTED_ATTRS then d else upsertAdd d q.1 q.2)
        d ∧ attr ∈ s by
    intro sys attr hmem hbl
    exact h lines [] sys attr hmem hbl
  intro ls
  induction ls with
  | nil => intro d sys attr h; simp at h
  | cons l rest ih =>
      intro d sys attr hmem hbl
      simp only [List.foldl_cons]
      rcases List.mem_cons.mp hmem with hl | hl
      · have hl2 : l.2 = attr := by rw [← hl]
        have hl1 : l.1 = sys := by rw [← hl]
        rw [if_neg (hl2 ▸ hbl)]
        refine gist_fold_preserves rest _ sys attr ?_
        rw [← hl1, ← hl2]
        exact upsertAdd_adds d l.1 l.2
      · by_cases hbl2 : l.2 ∈ BLACKLISTED_ATTRS
        · rw [if_pos hbl2]
          exact ih d sys attr hl hbl
        · rw [if_neg hbl2]
          exact ih _ sys attr hl hbl

/-! ### Status-scan lemmas -/

theorem scan_cons_status (fetch : String → List (String × String))
    (s : OfStatus) (rest : List OfStatusEntry) :
    scan_statuses fetch (OfStatusEntry.status s :: rest) =
      if s.description == some "^.^!" && s.state == some "success" then
        (if s.target_url = "" then ScanOutcome.finished none
          else ScanOutcome.finished (some
            ⟨s.target_url, get_ofborg_gist_data (fetch s.target_url)⟩))
      else if s.description == some FAILURE_MSG
          && s.state == some "failure" then
        ScanOutcome.finished none
      else scan_statuses fetch rest := rfl

theorem scan_statuses_skip (fetch : String → List (String × String))
    (pre : List OfStatusEntry) (hpre : ∀ e ∈ pre, statusEntryMatches e = false)
    (rest : List OfStatusEntry) :
    scan_statuses fetch (pre ++ rest) = scan_statuses fetch rest := by
  induction pre with
  | nil => rfl
  | cons e pre ih =>
      have he := hpre e (List.mem_cons_self _ _)
      have hrec := ih (fun q hq => hpre q (List.mem_cons_of_mem _ hq))
      cases e with
      | notDict =>
          show scan_statuses fetch (pre ++ rest) = scan_statuses fetch rest
          exact hrec
      | status s =>
          simp only [statusEntryMatches, Bool.or_eq_false_iff] at he
          show scan_statuses fetch (OfStatusEntry.status s :: (pre ++ rest)) =
            scan_statuses fetch rest
          rw [scan_cons_status, he.1, he.2]
          simp only [Bool.false_eq_true]
          rw [if_neg not_false, if_neg not_false]
          exact hrec

/-- **C7.** The per-iteration scan of a proposal's status list for the ofborg
identity: with all entries before the matching status matching neither
signature, (a) a success status with a non-empty target artifact resolves to
`some` evaluation holding the gist's architecture→unit mapping with
blocklisted names discarded (and every surviving name really present in the
gist), (b) a success status with an empty target artifact resolves to `none`,
(c) a failure status with the fixed description resolves to `none`, and (d)
when no entry matches either signature the scan keeps waiting (sleep then
retry). -/
theorem evalresolver_status_scan (fetch : String → List (String × String))
    (statuses : List OfStatusEntry) :
    (∀ (pre : List OfStatusEntry) (s : OfStatus) (rest : List OfStatusEntry),
      statuses = pre ++ OfStatusEntry.status s :: rest →
      (∀ e ∈ pre, statusEntryMatches e = false) →
      ((s.description = some "^.^!" ∧ s.state = some "success" →
          (s.target_url = "" →
            scan_statuses fetch statuses = ScanOutcome.finished none)
          ∧ (s.target_url ≠ "" →
              scan_statuses fetch statuses = ScanOutcome.finished (some
                ⟨s.target_url, get_ofborg_gist_data (fetch s.target_url)⟩)
              ∧ (∀ p ∈ get_ofborg_gist_data (fetch s.target_url), ∀ a ∈ p.2,
                  a ∉ BLACKLISTED_ATTRS ∧ (p.1, a) ∈ fetch s.target_url)
              ∧ (∀ sys attr, (sys, attr) ∈ fetch s.target_url →
                  attr ∉ BLACKLISTED_ATTRS →
                  ∃ st, (sys, st) ∈ get_ofborg_gist_data (fetch s.target_url)
                    ∧ attr ∈ st)))
        ∧ (s.description = some FAILURE_MSG ∧ s.state = some "failure" →
            scan_statuses fetch statuses = ScanOutcome.finished none)))
    ∧ ((∀ e ∈ statuses, statusEntryMatches e = false) →
        scan_statuses fetch statuses = ScanOutcome.keepWaiting) := by
  constructor
  · intro pre s rest heq hpre
    subst heq
    rw [scan_statuses_skip fetch pre hpre]
    constructor
    · rintro ⟨hd, hs⟩
      have hcond : (s.description == some "^.^!" && s.state == some "success")
          = true := by
        rw [hd, hs]; rfl
      constructor
      · intro hurl
        rw [scan_cons_status, hcond, if_pos rfl, if_pos hurl]
      · intro hurl
        refine ⟨?_, fun p hp a ha => mem_get_ofborg_gist_data _ p hp a ha,
          fun sys attr hmem hbl => gist_complete _ sys attr hmem hbl⟩
        rw [scan_cons_status, hcond, if_pos rfl, if_neg hurl]
    · rintro ⟨hd, hs⟩
      have hcond1 : (s.description == some "^.^!" && s.state == some "success")
          = false := by
        rw [hd]
        simp [FAILURE_MSG]
      have hcond2 : (s.description == some FAILURE_MSG
          && s.state == some "failure") = true := by
        rw [hd, hs]; rfl
      rw [scan_cons_status, hcond1, hcond2]
      simp only [Bool.false_eq_true]
      rw [if_neg not_false]
      simp only [if_pos]
  · intro hall
    have := scan_statuses_skip fetch statuses hall []
    rw [List.append_nil] at this
    exact this

def fetchEx : String → List (String × String) := fun _ =>
  [("x86_64-linux", "hello"), ("x86_64-linux", "tests.nixos-functions.nixos-test"),
    ("aarch64-linux", "hello")]

def statusSuccessEx : OfStatus :=
  ⟨some "^.^!", some "success", "/gistid"⟩

/-- Witness for C7: a non-matching pending status followed by the ofborg
success status with a non-empty artifact resolves to the filtered gist data. -/
theorem evalresolver_status_scan_witness :
    scan_statuses fetchEx
        [OfStatusEntry.status ⟨some "pending", some "pending", ""⟩,
          OfStatusEntry.status statusSuccessEx] =
      ScanOutcome.finished (some
        ⟨"/gistid", get_ofborg_gist_data (fetchEx "/gistid")⟩) :=
  (((evalresolver_status_scan fetchEx
      [OfStatusEntry.status ⟨some "pending", some "pending", ""⟩,
        OfStatusEntry.status statusSuccessEx]).1
    [OfStatusEntry.status ⟨some "pending", some "pending", ""⟩]
    statusSuccessEx [] rfl (by decide)).1 (by decide)).2 (by decide) |>.1

/-! ## EvalResolver: the polling loop of `get_ofborg_eval`
(nixpkgs.py lines 107-170)

Each iteration fetches the proposal detail, then — in this order — checks the
6-hour deadline, the draft flag, the presence of `statuses_url`, and finally
scans the status list.  Wall-clock instants are rationals (seconds). -/

def OFBORG_TIMEOUT_SECONDS : ℚ := 6 * 3600

structure EvalIter where
  now : ℚ
  draft : Bool
  hasStatusesUrl : Bool
  statuses : List OfStatusEntry

/-- One loop iteration: `some r` means the function returns `r`
(`r = none` is ofborg timeout / no packages / failure), `none` means
sleep-and-retry. -/
def get_ofborg_eval_step (fetch : String → List (String × String))
    (deadline : ℚ) (it : EvalIter) : Option (Option OfborgEval) :=
  if it.now > deadline then some none
  else if it.draft then none
  else if !it.hasStatusesUrl then none
  else
    match scan_statuses fetch it.statuses with
    | ScanOutcome.finished r => some r
    | ScanOutcome.keepWaiting => none

/-- The loop over a finite trace of iterations; `none` means the trace ended
with the loop still polling. -/
def get_ofborg_eval_run (fetch : String → List (String × String))
    (deadline : ℚ) : List EvalIter → Option (Option OfborgEval)
  | [] => none
  | it :: rest =>
      match get_ofborg_eval_step fetch deadline it with
      | some r => some r
      | none => get_ofborg_eval_run fetch deadline rest

theorem run_cons (fetch : String → List (String × String)) (deadline : ℚ)
    (it : EvalIter) (rest : List EvalIter) :
    get_ofborg_eval_run fetch deadline (it :: rest) =
      (match get_ofborg_eval_step fetch deadline it with
        | some r => some r
        | none => get_ofborg_eval_run fetch deadline rest) := rfl

theorem run_skip (fetch : String → List (String × String)) (deadline : ℚ)
    (pre : List EvalIter)
    (hpre : ∀ it ∈ pre, get_ofborg_eval_step fetch deadline it = none)
    (rest : List EvalIter) :
    get_ofborg_eval_run fetch deadline (pre ++ rest) =
      get_ofborg_eval_run fetch deadline rest := by
  induction pre with
  | nil => rfl
  | cons it pre ih =>
      show get_ofborg_eval_run fetch deadline (it :: (pre ++ rest)) = _
      rw [run_cons, hpre it (List.mem_cons_self _ _)]
      exact ih (fun q hq => hpre q (List.mem_cons_of_mem _ hq))

/-- **C8.** The deadline check is the first thing each iteration does after
the fetch, so any iteration whose fetch completes past the deadline makes
`get_ofborg_eval` return `none` immediately; and if consecutive checks are at
most one poll interval apart and the first check is before the deadline, the
loop returns `none` at a check instant at most one poll interval past the
deadline. -/
theorem evalresolver_six_hour_timeout
    (fetch : String → List (String × String)) (deadline interval : ℚ) :
    (∀ it : EvalIter, it.now > deadline →
      get_ofborg_eval_step fetch deadline it = some none)
    ∧ (∀ (pre : List EvalIter) (itk : EvalIter) (rest : List EvalIter),
        (∀ x ∈ (pre ++ itk :: rest).head?, x.now ≤ deadline) →
        List.Chain' (fun a b => b.now ≤ a.now + interval)
          (pre ++ itk :: rest) →
        (∀ it ∈ pre, get_ofborg_eval_step fetch deadline it = none) →
        itk.now > deadline →
        get_ofborg_eval_run fetch deadline (pre ++ itk :: rest) = some none
        ∧ itk.now ≤ deadline + interval) := by
  have hstep : ∀ it : EvalIter, it.now > deadline →
      get_ofborg_eval_step fetch deadline it = some none := by
    intro it h
    unfold get_ofborg_eval_step
    rw [if_pos h]
  refine ⟨hstep, ?_⟩
  intro pre itk rest hhead hchain hpre htk
  have hrun : get_ofborg_eval_run fetch deadline (pre ++ itk :: rest) =
      some none := by
    rw [run_skip fetch deadline pre hpre]
    rw [run_cons, hstep itk htk]
  refine ⟨hrun, ?_⟩
  have hstep_le : ∀ it ∈ pre, it.now ≤ deadline := by
    intro it hit
    by_contra hgt
    have := hstep it (lt_of_not_le hgt)
    rw [hpre it hit] at this
    exact Option.noConfusion this
  rcases List.eq_nil_or_concat pre with rfl | ⟨pre2, a, rfl⟩
  · have : itk.now ≤ deadline := by
      have := hhead itk
      simp at this
      exact this
    exact absurd htk (not_lt_of_le this)
  · simp only [List.concat_eq_append] at hchain hstep_le
    have hch := (List.chain'_append.mp hchain).2.2
    have hlast : ((pre2 ++ [a]).getLast?) = some a := List.getLast?_concat _
    have hr : itk.now ≤ a.now + interval := by
      refine hch a ?_ itk ?_
      · rw [hlast]; rfl
      · rfl
    have ha : a.now ≤ deadline :=
      hstep_le a (List.mem_append_right _ (List.mem_singleton_self _))
    linarith

def iterEarly : EvalIter := ⟨21599, false, true, []⟩

def iterLate : EvalIter := ⟨21601, false, true, []⟩

/-- Witness for C8 with deadline 21600 and poll interval 60: a pre-deadline
poll at 21599 followed by a poll at 21601 makes the loop return `none`, and
21601 is within one interval of the deadline. -/
theorem evalresolver_six_hour_timeout_witness :
    get_ofborg_eval_run fetchEx 21600 [iterEarly, iterLate] = some none
    ∧ iterLate.now ≤ 21600 + 60 := by
  have h := (evalresolver_six_hour_timeout fetchEx 21600 60).2
    [iterEarly] iterLate []
  refine h ?_ ?_ ?_ ?_
  · intro x hx
    simp at hx
    subst hx
    norm_num [iterEarly]
  · rw [show ([iterEarly] ++ [iterLate] : List EvalIter) =
      [iterEarly, iterLate] from rfl, List.chain'_cons]
    exact ⟨by norm_num [iterEarly, iterLate], List.chain'_singleton _⟩
  · intro it hit
    simp at hit
    subst hit
    decide
  · norm_num [iterLate]

/-! ## LocalSubmissionServer: `handle_request` (server.py lines 11-23)

The request body is modelled as `Option PyJson`: `none` when
`request.json()` raises `JSONDecodeError`, `some v` for the decoded JSON
value.  Python's `json.loads` maps JSON `true`/`false` to `bool`, a subtype
of `int`, so `isinstance(pr, int)` accepts booleans.  Subscripting a
non-dict value with a string key raises `TypeError`, which the handler does
not catch, so aiohttp turns it into an internal server error. -/

inductive PyJson where
  | null
  | bool (b : Bool)
  | int (n : Int)
  | str (s : String)
  | arr (xs : List PyJson)
  | obj (kvs : List (String × PyJson))

inductive GetItemResult where
  | ok (v : PyJson)
  | keyError
  | typeError

/-- Python `data["pr"]`: a lookup on a dict (KeyError when absent), a
`TypeError` on any non-dict value. -/
def getitem_pr : PyJson → GetItemResult
  | PyJson.obj kvs =>
      match kvs.lookup "pr" with
      | some v => GetItemResult.ok v
      | none => GetItemResult.keyError
  | _ => GetItemResult.typeError

/-- Python `isinstance(x, int)`: true for ints and for bools. -/
def py_isinstance_int : PyJson → Bool
  | PyJson.int _ => true
  | PyJson.bool _ => true
  | _ => false

inductive HttpResult where
  | badRequest          -- HTTP 400
  | unprocessableEntity -- HTTP 422
  | ok                  -- HTTP 200 with body {"status": "ok"}
  | unhandledError      -- uncaught exception, HTTP 500
deriving DecidableEq

/-- `handle_request` (server.py lines 11-23): 400 when the body is not valid
JSON; then `data["pr"]` with `except (KeyError, AssertionError)` → 422;
`assert isinstance(pr, int)` failing → 422; otherwise 200.  A `TypeError`
from subscripting a non-dict body is not caught. -/
def handle_request (body : Option PyJson) : HttpResult :=
  match body with
  | none => HttpResult.badRequest
  | some d =>
      match getitem_pr d with
      | GetItemResult.keyError => HttpResult.unprocessableEntity
      | GetItemResult.typeError => HttpResult.unhandledError
      | GetItemResult.ok v =>
          if py_isinstance_int v then HttpResult.ok
          else HttpResult.unprocessableEntity

/-- **C9, counterexample.** The body `[]` is valid JSON and its `pr` field is
missing, so the claim predicts HTTP 422 — but `[]["pr"]` raises an uncaught
`TypeError`, so the handler produces an internal error, which is neither 422
nor 200 (nor 400). -/
theorem server_nondict_body_counterexample :
    handle_request (some (PyJson.arr [])) = HttpResult.unhandledError
    ∧ HttpResult.unhandledError ≠ HttpResult.unprocessableEntity
    ∧ HttpResult.unhandledError ≠ HttpResult.ok
    ∧ HttpResult.unhandledError ≠ HttpResult.badRequest := by
  refine ⟨rfl, ?_, ?_, ?_⟩ <;> intro h <;> exact HttpResult.noConfusion h

/-- **C9, amended.** A body that is not valid JSON yields 400.  For a
valid-JSON *object* body: 422 when `pr` is missing, 422 when `pr` is present
but neither an integer nor a boolean, and 200 when `pr` is an integer or a
boolean (Python's `bool` is a subtype of `int`, so `isinstance(pr, int)`
accepts it).  A valid-JSON non-object body raises an uncaught `TypeError`
(an internal server error), not 422. -/
theorem server_handle_request_amended :
    handle_request none = HttpResult.badRequest
    ∧ (∀ kvs : List (String × PyJson), kvs.lookup "pr" = none →
        handle_request (some (PyJson.obj kvs)) = HttpResult.unprocessableEntity)
    ∧ (∀ (kvs : List (String × PyJson)) (v : PyJson),
        kvs.lookup "pr" = some v → py_isinstance_int v = true →
        handle_request (some (PyJson.obj kvs)) = HttpResult.ok)
    ∧ (∀ (kvs : List (String × PyJson)) (v : PyJson),
        kvs.lookup "pr" = some v → py_isinstance_int v = false →
        handle_request (some (PyJson.obj kvs)) = HttpResult.unprocessableEntity)
    ∧ (∀ d : PyJson, (∀ kvs, d ≠ PyJson.obj kvs) →
        handle_request (some d) = HttpResult.unhandledError) := by
  refine ⟨rfl, ?_, ?_, ?_, ?_⟩
  · intro kvs hlook
    simp only [handle_request, getitem_pr, hlook]
  · intro kvs v hlook hint
    simp only [handle_request, getitem_pr, hlook, hint, if_pos]
  · intro kvs v hlook hint
    simp only [handle_request, getitem_pr, hlook, hint, Bool.false_eq_true,
      if_false]
  · intro d hd
    cases d with
    | obj kvs => exact absurd rfl (hd kvs)
    | null => rfl
    | bool b => rfl
    | int n => rfl
    | str s => rfl
    | arr xs => rfl

/-- Witness for the amended C9: `{"pr": 119054}` yields 200, `{}` yields 422,
`{"pr": "x"}` yields 422. -/
theorem server_handle_request_amended_witness :
    handle_request (some (PyJson.obj [("pr", PyJson.int 119054)])) =
      HttpResult.ok
    ∧ handle_request (some (PyJson.obj [])) = HttpResult.unprocessableEntity
    ∧ handle_request (some (PyJson.obj [("pr", PyJson.str "x")])) =
      HttpResult.unprocessableEntity := by
  refine ⟨?_, ?_, ?_⟩
  · exact server_handle_request_amended.2.2.1 [("pr", PyJson.int 119054)]
      (PyJson.int 119054) rfl rfl
  · exact server_handle_request_amended.2.1 [] rfl
  · exact server_handle_request_amended.2.2.2.1 [("pr", PyJson.str "x")]
      (PyJson.str "x") rfl rfl

/-! ## Dispatcher: the main-loop body of `execute` (frontend.py lines 112-146)
together with `log_buildable_pr` (lines 47-70)

The externally visible effects of one resolved evaluation are traced as a
list of actions.  `conn` exists iff a database URL is configured (also in dry
mode); `sqs_queues` exist iff not dry, and `execute` asserts that a non-dry
run has a database URL. -/

inductive DispatchAction where
  | writeRecord (pr : ℕ) (counts : List (String × ℕ))
  | sendMessage (system : String) (pr : ℕ) (url : String)
deriving DecidableEq

def ALL_BUILD_SYSTEMS : List String := ["aarch64-linux", "x86_64-linux"]

/-- `ofborg_eval["packages_per_system"].get(system, set())`. -/
def pps_get (pps : List (String × Finset String)) (sys : String) :
    Finset String :=
  match pps.lookup sys with
  | some s => s
  | none => ∅

/-- `log_buildable_pr` (frontend.py lines 47-70): returns immediately when no
connection is configured, else inserts exactly one dispatch row whose
`num_packages` JSON maps each architecture to its unit count. -/
def log_buildable_pr (hasConn : Bool) (pr : ℕ) (oe : OfborgEval) :
    List DispatchAction :=
  if hasConn then
    [DispatchAction.writeRecord pr
      (oe.packages_per_system.map (fun p => (p.1, p.2.card)))]
  else []

/-- The body of `execute`'s `async for` loop for one `(event, ofborg_eval)`
pair (frontend.py lines 113-153): skip when the evaluation is `None`;
otherwise log the dispatch record, then — when queues exist — send one
message per architecture whose unit set is non-empty. -/
def execute_step (dry : Bool) (databaseUrl : Option String) (pr : ℕ) :
    Option OfborgEval → List DispatchAction
  | none => []
  | some oe =>
      log_buildable_pr databaseUrl.isSome pr oe
        ++ (if !dry then
              (ALL_BUILD_SYSTEMS.filter
                (fun sys => !(pps_get oe.packages_per_system sys == ∅))).map
                (fun sys => DispatchAction.sendMessage sys pr oe.url)
            else [])

def isWriteRecord : DispatchAction → Bool
  | DispatchAction.writeRecord _ _ => true
  | DispatchAction.sendMessage _ _ _ => false

/-- **C6.** In a non-dry run (where `execute` asserts a database URL is
present), the loop body for a resolved evaluation emits exactly one
`DispatchRecord` write, carrying the per-architecture unit counts, as its
first action — strictly before any queue message is sent — and everything
after it is a queue send. -/
theorem dispatcher_one_record_before_sends (dry : Bool)
    (databaseUrl : Option String) (pr : ℕ) (oe : Option OfborgEval)
    (u : String) (ev : OfborgEval) (hdry : dry = false)
    (hdb : databaseUrl = some u) (hoe : oe = some ev) :
    ((execute_step dry databaseUrl pr oe).countP isWriteRecord = 1)
    ∧ (∃ rest, execute_step dry databaseUrl pr oe =
        DispatchAction.writeRecord pr
          (ev.packages_per_system.map (fun p => (p.1, p.2.card))) :: rest
        ∧ ∀ a ∈ rest, isWriteRecord a = false) := by
  subst hdry hdb hoe
  have hrec : execute_step false (some u) pr (some ev) =
      DispatchAction.writeRecord pr
        (ev.packages_per_system.map (fun p => (p.1, p.2.card))) ::
        (ALL_BUILD_SYSTEMS.filter
          (fun sys => !(pps_get ev.packages_per_system sys == ∅))).map
          (fun sys => DispatchAction.sendMessage sys pr ev.url) := by
    simp [execute_step, log_buildable_pr]
  rw [hrec]
  constructor
  · rw [List.countP_cons_of_pos _ _ (by rfl)]
    have : (List.countP isWriteRecord
        ((ALL_BUILD_SYSTEMS.filter
          (fun sys => !(pps_get ev.packages_per_system sys == ∅))).map
          (fun sys => DispatchAction.sendMessage sys pr ev.url))) = 0 := by
      rw [List.countP_eq_zero]
      intro a ha
      rcases List.mem_map.mp ha with ⟨sys, _, he⟩
      rw [← he]
      simp [isWriteRecord]
    rw [this]
  · refine ⟨_, rfl, ?_⟩
    intro a ha
    rcases List.mem_map.mp ha with ⟨sys, _, he⟩
    rw [← he]
    rfl

def evalEx : OfborgEval :=
  ⟨"https://gist.github.com/abc", [("x86_64-linux", {"hello"}),
    ("aarch64-linux", ∅)]⟩

/-- Witness for C6 at a concrete evaluation: exactly one record write, first. -/
theorem dispatcher_one_record_before_sends_witness :
    (execute_step false (some "postgres://db") 117861 (some evalEx)).countP
      isWriteRecord = 1 :=
  (dispatcher_one_record_before_sends false (some "postgres://db") 117861
    (some evalEx) "postgres://db" evalEx rfl rfl rfl).1

/-! ## WorkerLoop: `iter_sqs` (backend.py lines 240-271) and
`deprovision_backend` (lines 226-237)

`get_from_sqs` polls with `MaxNumberOfMessages=1`, so a batch holds at most
one message.  For each received message the loop runs
`try: body = json.loads(m.body)` with `finally: m.delete()`, then yields the
body; the consumer in `main` runs the build synchronously before the next
poll.  `deprovision_backend` shells out to the aws CLI with `check=True`,
which raises `CalledProcessError` when the command fails. -/

def GET_FROM_SQS_MAX_MESSAGES : ℕ := 1

structure SqsMsg where
  mid : String
  bodyOk : Bool  -- whether `json.loads(m.body)` succeeds
deriving DecidableEq

inductive WorkerAction where
  | delete (mid : String)
  | startBuild (mid : String)
deriving DecidableEq

/-- The `for m in messages` body (backend.py lines 258-271), traced: the
delete runs in the `finally` block, before the yield; a body that fails to
parse is still deleted, after which the exception propagates and ends the
loop. The consumer starts the build for each yielded body. -/
def processBatch : List SqsMsg → List WorkerAction
  | [] => []
  | m :: ms =>
      if m.bodyOk then
        WorkerAction.delete m.mid :: WorkerAction.startBuild m.mid ::
          processBatch ms
      else [WorkerAction.delete m.mid]

/-- **C4.** Every message received in one poll (at most one, since the queue
is polled with `MaxNumberOfMessages=1`) is deleted exactly once, and any
start-of-build for that message occurs strictly after its delete in the
trace — so the delete precedes the build regardless of the build's outcome,
and the message is never redelivered. -/
theorem worker_delete_before_build (msgs : List SqsMsg)
    (hlen : msgs.length ≤ GET_FROM_SQS_MAX_MESSAGES) :
    ∀ m ∈ msgs,
      ((processBatch msgs).countP (fun a => a == WorkerAction.delete m.mid) = 1)
      ∧ (∀ k : ℕ, (processBatch msgs).get? k =
            some (WorkerAction.startBuild m.mid) →
          ∃ j : ℕ, j < k ∧ (processBatch msgs).get? j =
            some (WorkerAction.delete m.mid)) := by
  match msgs with
  | [] => intro m hm; simp at hm
  | [m0] =>
      intro m hm
      rcases List.mem_singleton.mp hm with rfl
      by_cases hok : m.bodyOk
      · have hdef : processBatch [m] =
            [WorkerAction.delete m.mid, WorkerAction.startBuild m.mid] := by
          simp [processBatch, hok]
        rw [hdef]
        constructor
        · simp
        · intro k hk
          refine ⟨0, ?_, rfl⟩
          match k with
          | 0 => exact absurd hk (by simp)
          | 1 => exact Nat.zero_lt_one
          | (n + 2) => exact absurd hk (by simp [List.get?])
      · have hdef : processBatch [m] = [WorkerAction.delete m.mid] := by
          simp [processBatch, hok]
        rw [hdef]
        constructor
        · simp
        · intro k hk
          match k with
          | 0 => exact absurd hk (by simp)
          | (n + 1) => exact absurd hk (by simp [List.get?])
  | m0 :: m1 :: ms =>
      exact absurd hlen (by simp [GET_FROM_SQS_MAX_MESSAGES])

/-- Witness for C4: a single well-formed message is deleted once, before its
build starts. -/
theorem worker_delete_before_build_witness :
    (processBatch [⟨"msg-1", true⟩]).countP
      (fun a => a == WorkerAction.delete "msg-1") = 1 :=
  (worker_delete_before_build [⟨"msg-1", true⟩] (by decide)
    ⟨"msg-1", true⟩ (by decide)).1

/-- `IDLE_CUTOFF.total_seconds()`: 15 minutes. -/
def IDLE_CUTOFF : ℚ := 15 * 60

/-- One poll of the worker loop: the number of messages received, the wall
clock at the poll, and whether the aws CLI would exit successfully were
`deprovision_backend` invoked now. -/
structure WorkerPoll where
  msgs : ℕ
  now : ℚ
  deprovOk : Bool

/-- `deprovision_backend` (backend.py lines 226-237): `subprocess.run(cmd,
check=True)` — `check=True` raises `CalledProcessError` when the aws CLI
fails. -/
def deprovision_backend (cmdOk : Bool) : Except String Unit :=
  if cmdOk then Except.ok () else Except.error "CalledProcessError"

/-- The idle-tracking head of one `iter_sqs` iteration (backend.py lines
243-253): update `last_sqs_message` on a non-empty poll, then decide whether
to issue the self-deprovision request (`last_sqs_message` is never `None`:
it is initialised to `time.time()` at startup).  Returns (request issued,
new `last_sqs_message`). -/
def iter_sqs_step (last : ℚ) (p : WorkerPoll) : Bool × ℚ :=
  let last2 := if p.msgs > 0 then p.now else last
  (decide (p.msgs = 0) && decide (p.now - last2 > IDLE_CUTOFF), last2)

/-- The worker loop's idle machinery over a finite trace of polls: one
decision per poll.  When the deprovision request is issued and the aws CLI
fails, the `CalledProcessError` propagates and the loop dies; otherwise the
loop continues — there is deliberately no `return` after the request. -/
def iter_sqs_run (last : ℚ) : List WorkerPoll → Except String (List Bool)
  | [] => Except.ok []
  | p :: ps =>
      let st := iter_sqs_step last p
      if st.1 then
        match deprovision_backend p.deprovOk with
        | Except.error e => Except.error e
        | Except.ok _ => (iter_sqs_run st.2 ps).map (fun fs => st.1 :: fs)
      else (iter_sqs_run st.2 ps).map (fun fs => st.1 :: fs)

/-- **C5, counterexample.** An idle poll past the cutoff issues the
deprovision request, and because `deprovision_backend` runs the aws CLI with
`check=True`, a failing command raises `CalledProcessError` out of the loop:
the worker process *does* exit from the idle path, contradicting the claim
that it never does (rather than the error being merely logged). -/
theorem worker_idle_deprovision_counterexample :
    iter_sqs_run 0 [⟨0, 1000, false⟩] = Except.error "CalledProcessError" := by
  have hstep : iter_sqs_step 0 ⟨0, 1000, false⟩ = (true, 0) := by
    unfold iter_sqs_step
    norm_num [IDLE_CUTOFF]
  unfold iter_sqs_run
  simp only [hstep]
  rfl

/-- **C5, amended.** The self-deprovision request is issued iff the current
poll returned zero messages and the elapsed time since the last non-empty
poll (or startup) strictly exceeds the 15-minute cutoff — never on an early
zero-message poll; and whenever every issued request's aws CLI call
succeeds, the loop keeps polling to the end of the trace, one decision per
poll, never exiting from the idle path. -/
theorem worker_idle_deprovision_amended :
    (∀ (last : ℚ) (p : WorkerPoll),
      (iter_sqs_step last p).1 = true ↔
        (p.msgs = 0 ∧ p.now - last > IDLE_CUTOFF))
    ∧ (∀ (last : ℚ) (ps : List WorkerPoll),
        (∀ p ∈ ps, p.deprovOk = true) →
        ∃ fs, iter_sqs_run last ps = Except.ok fs ∧ fs.length = ps.length) := by
  constructor
  · intro last p
    unfold iter_sqs_step
    by_cases hm : p.msgs = 0
    · have : (if p.msgs > 0 then p.now else last) = last := by
        rw [if_neg]
        omega
      rw [this]
      simp [hm]
    · have h0 : ¬(decide (p.msgs = 0) = true) := by simp [hm]
      constructor
      · intro h
        exact absurd (Bool.and_elim_left h) h0
      · rintro ⟨h, _⟩
        exact absurd h hm
  · intro last ps
    induction ps generalizing last with
    | nil => intro _; exact ⟨[], rfl, rfl⟩
    | cons p ps ih =>
        intro hok
        rcases ih (iter_sqs_step last p).2
            (fun q hq => hok q (List.mem_cons_of_mem _ hq)) with ⟨fs, hfs, hlen⟩
        have hp := hok p (List.mem_cons_self _ _)
        by_cases hfire : (iter_sqs_step last p).1
        · refine ⟨(iter_sqs_step last p).1 :: fs, ?_, by simp [hlen]⟩
          show iter_sqs_run last (p :: ps) = _
          unfold iter_sqs_run
          rw [if_pos hfire]
          unfold deprovision_backend
          rw [if_pos hp, hfs]
          rfl
        · refine ⟨(iter_sqs_step last p).1 :: fs, ?_, by simp [hlen]⟩
          show iter_sqs_run last (p :: ps) = _
          unfold iter_sqs_run
          rw [if_neg hfire, hfs]
          rfl

/-- Witness for the amended C5: an early zero-message poll (at 60 s) does not
fire; a zero-message poll 1000 s after the last non-empty poll does; a run of
both (with a succeeding CLI) keeps polling to the end. -/
theorem worker_idle_deprovision_amended_witness :
    ((iter_sqs_step 0 ⟨0, 60, true⟩).1 = false)
    ∧ ((iter_sqs_step 0 ⟨0, 1000, true⟩).1 = true)
    ∧ (∃ fs, iter_sqs_run 0 [⟨0, 60, true⟩, ⟨0, 1000, true⟩] = Except.ok fs
        ∧ fs.length = 2) := by
  refine ⟨?_, ?_, ?_⟩
  · have h := (worker_idle_deprovision_amended.1 0 ⟨0, 60, true⟩)
    by_cases hb : (iter_sqs_step 0 ⟨0, 60, true⟩).1
    · rcases h.mp hb with ⟨_, habs⟩
      norm_num [IDLE_CUTOFF] at habs
    · simpa using hb
  · exact (worker_idle_deprovision_amended.1 0 ⟨0, 1000, true⟩).mpr
      ⟨rfl, by norm_num [IDLE_CUTOFF]⟩
  · exact worker_idle_deprovision_amended.2 0 [⟨0, 60, true⟩, ⟨0, 1000, true⟩]
      (by intro p hp; rcases List.mem_cons.mp hp with h | h
          · rw [h]
          · rcases List.mem_singleton.mp h with rfl; rfl)

/-! ## PublishGate: `is_blocked` (block_github_comment.py lines 147-231)

The gate's environment — journald contents, disk usage, the github comments
and proposal detail, the host-specific review-signature needle, and the
dry-run flag — is packaged as an explicit context.  The Python function
mutates `report_json["blocked_reason"]` and returns a `bool`; here the
result is `Option String`: `some reason` exactly when the function returns
`True` having set that reason. -/

structure GhComment where
  userLogin : Option String  -- comment["user"]["login"]; none models KeyError
  body : String
deriving DecidableEq

structure PrData where
  userLogin : String  -- pr_data["user"]["login"]
  state : String      -- pr_data["state"]
  body : String       -- pr_data["body"], scanned by the signature check
deriving DecidableEq

/-- The `ReportJson` fields the gate reads (nix.py lines 25-42). -/
structure ReportJson where
  built : List String
  failed : List String
  timed_out : List String
  hammer_report : Option String
  pr : ℕ
deriving DecidableEq

structure GateCtx where
  hasStartTime : Bool  -- NIXPKGS_REVIEW_START_TIME present in the environment
  oomJournalEvents : List (Option String)  -- msg.get("event") per journal entry
  earlyoomMessages : List String  -- MESSAGE per earlyoom journal entry
  diskUsed : ℕ
  diskTotal : ℕ
  prevComments : List GhComment  -- gh.pull_request_comments(pr)
  prData : PrData                -- gh.pull_request(pr)
  reviewNeedle : String  -- the host-specific nixpkgs-review signature
  dryRun : Bool          -- NIXPKGS_REVIEW_DRY_RUN in os.environ
deriving DecidableEq

def GH_USER_BLOCKLIST : List String :=
  ["alyssais", "ashkitten", "andir", "edef1c", "mweinelt", "adisbladis",
    "NinjaTrappeur", "vbgl"]

def upload_blocked_due_to_blocklist (pr_user_login : String)
    (rj : ReportJson) : Bool :=
  decide (pr_user_login ∈ GH_USER_BLOCKLIST) && decide (rj.failed.length = 0)

def upload_blocked_oom_or_enospc (ctx : GateCtx) : Bool :=
  if !ctx.hasStartTime then false
  else ctx.oomJournalEvents.any
    (fun e => e == some "OOM Kill" || e == some "ENOSPC")

/-- `is_kill` inside `upload_blocked_earlyoom`: substring match on the
journal message. -/
def is_kill (msg : String) : Bool :=
  decide (("sending SIGTERM to process").toList <:+: msg.toList)
    || decide (("sending SIGKILL to process").toList <:+: msg.toList)

def upload_blocked_earlyoom (ctx : GateCtx) : Bool :=
  if !ctx.hasStartTime then false
  else ctx.earlyoomMessages.any is_kill

def upload_blocked_single_build (rj : ReportJson) : Bool :=
  decide (rj.built.length = 1) && decide (rj.failed.length = 0)
    && decide (rj.hammer_report = none)

def upload_blocked_disk_full (ctx : GateCtx) (rj : ReportJson) : Bool :=
  decide (rj.failed.length > 0)
    && decide ((ctx.diskUsed : ℚ) / (ctx.diskTotal : ℚ) > 0.95)

def upload_blocked_empty (rj : ReportJson) : Bool :=
  decide (rj.built.length + rj.failed.length = 0)

def upload_blocked_timed_out (rj : ReportJson) : Bool :=
  decide (rj.timed_out.length > 0)

def upload_blocked_due_to_pr_closed (pr : PrData) : Bool :=
  pr.state == "closed"

/-- `NEEDLE in comment["body"]`, applied to a body string. -/
def github_comment_is_nixpkgs_review (needle body : String) : Bool :=
  decide (needle.toList <:+: body.toList)

/-- `comment["user"]["login"] == "r-rmcgibbo"`, `False` on KeyError. -/
def github_comment_is_editable (c : GhComment) : Bool :=
  c.userLogin == some "r-rmcgibbo"

/-- `is_blocked` (block_github_comment.py lines 147-231): the fixed predicate
chain, short-circuiting on the first match; checks 6-9 run only when no
existing comment was authored by the bot's own identity (`is_first_build`);
the dry-run check is unconditionally last. -/
def is_blocked (ctx : GateCtx) (rj : ReportJson) : Option String :=
  if upload_blocked_oom_or_enospc ctx then some "OOM_ENOSPC"
  else if upload_blocked_earlyoom ctx then some "EARLY_OOM"
  else if upload_blocked_disk_full ctx rj then some "DISK_FULL"
  else if upload_blocked_empty rj then some "NO_PACKAGES_BUILT"
  else if upload_blocked_timed_out rj then some "BUILD_TIMEOUT"
  else
    let is_second_build := ctx.prevComments.any github_comment_is_editable
    let is_first_build := !is_second_build
    if is_first_build then
      if upload_blocked_single_build rj then some "SINGLE_CLEAN_PACKAGE"
      else if upload_blocked_due_to_blocklist ctx.prData.userLogin rj then
        some "AUTHOR_BLOCKLIST_CLEAN"
      else if upload_blocked_due_to_pr_closed ctx.prData then some "PR_CLOSED"
      else if ((ctx.prData.body :: ctx.prevComments.map GhComment.body).any
            (github_comment_is_nixpkgs_review ctx.reviewNeedle)
          && decide (rj.failed.length = 0)
          && decide (rj.hammer_report = none)) then
        some "PREVIOUS_REVIEW"
      else if ctx.dryRun then some "DRY_RUN"
      else none
    else if ctx.dryRun then some "DRY_RUN"
    else none

/-- A clean environment: start time set, empty journals, empty disk, no
prior comments, proposal authored by opt-out-listed user `vbgl`, open. -/
def ctxClean : GateCtx :=
  ⟨true, [], [], 0, 1, [], ⟨"vbgl", "open", "PR description"⟩,
    "run on x86_64-linux", false⟩

def rjTimedOut : ReportJson := ⟨["pkg1"], [], ["pkg2"], none, 117861⟩

/-- **C2, counterexample.** A report with exactly one built unit, zero failed
units, no hammer report, no prior bot comment (and the author in the opt-out
list) — but a non-empty timed-out list — satisfies every hypothesis of the
claim yet is blocked as BUILD_TIMEOUT (check 5 precedes check 6), not
SINGLE_CLEAN_PACKAGE. -/
theorem publishgate_single_clean_counterexample :
    rjTimedOut.built.length = 1 ∧ rjTimedOut.failed.length = 0
    ∧ rjTimedOut.hammer_report = none
    ∧ ctxClean.prevComments = []
    ∧ ctxClean.prData.userLogin ∈ GH_USER_BLOCKLIST
    ∧ is_blocked ctxClean rjTimedOut = some "BUILD_TIMEOUT"
    ∧ some "BUILD_TIMEOUT" ≠ some "SINGLE_CLEAN_PACKAGE" := by
  refine ⟨rfl, rfl, rfl, rfl, by decide, ?_, by decide⟩
  decide

/-- **C2, amended.** With additionally no timed-out units and no OOM/ENOSPC
or early-OOM signal in the journals (disk-full and empty cannot fire given
zero failed and one built unit), a report with exactly one built unit, zero
failed units, no hammer report and no prior bot-authored comment is blocked
as SINGLE_CLEAN_PACKAGE — even when the author is in the opt-out list, since
check 6 precedes check 7. -/
theorem publishgate_single_clean_first_amended (ctx : GateCtx)
    (rj : ReportJson) (hbuilt : rj.built.length = 1)
    (hfailed : rj.failed.length = 0) (hhammer : rj.hammer_report = none)
    (htimed : rj.timed_out = [])
    (hoom : upload_blocked_oom_or_enospc ctx = false)
    (hearly : upload_blocked_earlyoom ctx = false)
    (hcomments : ∀ c ∈ ctx.prevComments, github_comment_is_editable c = false) :
    is_blocked ctx rj = some "SINGLE_CLEAN_PACKAGE" := by
  have hdisk : upload_blocked_disk_full ctx rj = false := by
    unfold upload_blocked_disk_full
    rw [hfailed]
    simp
  have hempty : upload_blocked_empty rj = false := by
    unfold upload_blocked_empty
    rw [hbuilt, hfailed]
    simp
  have htimedb : upload_blocked_timed_out rj = false := by
    unfold upload_blocked_timed_out
    rw [htimed]
    simp
  have hsingle : upload_blocked_single_build rj = true := by
    unfold upload_blocked_single_build
    rw [hbuilt, hfailed, hhammer]
    simp
  have hsecond : ctx.prevComments.any github_comment_is_editable = false := by
    rw [List.any_eq_false]
    intro c hc
    rw [hcomments c hc]
    simp
  unfold is_blocked
  rw [hoom, hearly, hdisk, hempty, htimedb]
  simp only [Bool.false_eq_true, if_false, hsecond, Bool.not_false, if_true,
    hsingle]

def rjSingleClean : ReportJson := ⟨["pkg1"], [], [], none, 117861⟩

/-- Witness for the amended C2: a clean environment, an opt-out-listed
author, one built unit, zero failed — blocked as SINGLE_CLEAN_PACKAGE. -/
theorem publishgate_single_clean_first_amended_witness :
    is_blocked ctxClean rjSingleClean = some "SINGLE_CLEAN_PACKAGE" :=
  publishgate_single_clean_first_amended ctxClean rjSingleClean rfl rfl rfl rfl
    (by decide) (by decide) (by intro c hc; simp [ctxClean] at hc)

/-- **C3.** When some existing comment on the proposal is authored by the
bot's own identity (the edit path), checks 6-9 are skipped entirely: whatever
the report and the rest of the context — author in the opt-out list, proposal
closed, single clean build included — the gate never blocks with
SINGLE_CLEAN_PACKAGE, AUTHOR_BLOCKLIST_CLEAN, PR_CLOSED or PREVIOUS_REVIEW;
any blocking reason is one of the five unconditional checks or DRY_RUN. -/
theorem publishgate_edit_path_skips_noise_checks (ctx : GateCtx)
    (rj : ReportJson)
    (hedit : ∃ c ∈ ctx.prevComments, github_comment_is_editable c = true) :
    (∀ r, is_blocked ctx rj = some r →
      r ∈ (["OOM_ENOSPC", "EARLY_OOM", "DISK_FULL", "NO_PACKAGES_BUILT",
        "BUILD_TIMEOUT", "DRY_RUN"] : List String))
    ∧ is_blocked ctx rj ≠ some "SINGLE_CLEAN_PACKAGE"
    ∧ is_blocked ctx rj ≠ some "AUTHOR_BLOCKLIST_CLEAN"
    ∧ is_blocked ctx rj ≠ some "PR_CLOSED"
    ∧ is_blocked ctx rj ≠ some "PREVIOUS_REVIEW" := by
  have hsecond : ctx.prevComments.any github_comment_is_editable = true := by
    rw [List.any_eq_true]
    rcases hedit with ⟨c, hc, he⟩
    exact ⟨c, hc, he⟩
  have hmain : ∀ r, is_blocked ctx rj = some r →
      r ∈ (["OOM_ENOSPC", "EARLY_OOM", "DISK_FULL", "NO_PACKAGES_BUILT",
        "BUILD_TIMEOUT", "DRY_RUN"] : List String) := by
    intro r hr
    unfold is_blocked at hr
    simp only [hsecond, Bool.not_true, Bool.false_eq_true, if_false] at hr
    by_cases h1 : upload_blocked_oom_or_enospc ctx = true
    · rw [if_pos h1] at hr
      rw [← Option.some.inj hr]
      decide
    · rw [if_neg h1] at hr
      by_cases h2 : upload_blocked_earlyoom ctx = true
      · rw [if_pos h2] at hr
        rw [← Option.some.inj hr]
        decide
      · rw [if_neg h2] at hr
        by_cases h3 : upload_blocked_disk_full ctx rj = true
        · rw [if_pos h3] at hr
          rw [← Option.some.inj hr]
          decide
        · rw [if_neg h3] at hr
          by_cases h4 : upload_blocked_empty rj = true
          · rw [if_pos h4] at hr
            rw [← Option.some.inj hr]
            decide
          · rw [if_neg h4] at hr
            by_cases h5 : upload_blocked_timed_out rj = true
            · rw [if_pos h5] at hr
              rw [← Option.some.inj hr]
              decide
            · rw [if_neg h5] at hr
              by_cases h6 : ctx.dryRun = true
              · rw [if_pos h6] at hr
                rw [← Option.some.inj hr]
                decide
              · rw [if_neg h6] at hr
                exact absurd hr (by simp)
  refine ⟨hmain, ?_, ?_, ?_, ?_⟩ <;>
    exact fun h => absurd (hmain _ h) (by decide)

def ctxEdit : GateCtx :=
  ⟨true, [], [], 0, 1, [⟨some "r-rmcgibbo", "old bot comment"⟩],
    ⟨"vbgl", "closed", "PR description"⟩, "run on x86_64-linux", false⟩

/-- Witness for C3: with a prior bot-authored comment, an opt-out-listed
author and a closed proposal, a single-clean report is not blocked as
PR_CLOSED (nor as any of the noise reasons). -/
theorem publishgate_edit_path_skips_noise_checks_witness :
    is_blocked ctxEdit rjSingleClean ≠ some "PR_CLOSED" :=
  (publishgate_edit_path_skips_noise_checks ctxEdit rjSingleClean
    ⟨⟨some "r-rmcgibbo", "old bot comment"⟩, by decide, rfl⟩).2.2.2.1

end Nixbot
